import Mathlib

/-!
Verification development for the offline election pipeline
(repository root, source file `offline-election/src/main.rs`).

The first part embeds the command-line driver of `main.rs`: the argument
structures, the network/address-format resolution, the token-settings
side effects and the sub-command dispatch.  The second part embeds the
election pipeline (sequential selection, balancing, reduction), which
lives in modules of this repository that are not present under `src/`
and is therefore modelled from the specification.
-/

namespace OfflineElection

/-! ### Command line surface, from `offline-election/src/main.rs` -/

/-- `AccountId`: account identifier, modelled abstractly as a natural. -/
abbrev AccountId := Nat

/-- `Hash`: block hash, modelled abstractly as a natural. -/
abbrev Hash := Nat

/-- `StakingConfig` (main.rs lines 257-283): arguments of the `staking`
sub-command. -/
structure StakingConfig where
  count : Option Nat
  max : Option Nat
  input : Option String
  output : Option String
  iterations : Nat
  reduce : Bool
deriving DecidableEq, Repr

/-- `CouncilConfig` (main.rs lines 285-300): arguments of the `council`
sub-command.  Note it has only `count`, `output` and `iterations` fields. -/
structure CouncilConfig where
  count : Option Nat
  output : Option String
  iterations : Nat
deriving DecidableEq, Repr

/-- Building a `StakingConfig` from command-line occurrences, applying the
structopt attributes of main.rs: `iterations` carries
`default_value = "0"` (used when the option is absent), and `reduce` is
parsed `from_flag` (present means `true`, absent means `false`). -/
def StakingConfig.fromArgs (count max : Option Nat) (input output : Option String)
    (iterations : Option Nat) (reduceFlagPresent : Bool) : StakingConfig :=
  { count := count
    max := max
    input := input
    output := output
    iterations := iterations.getD 0
    reduce := reduceFlagPresent }

/-- Building a `CouncilConfig` from command-line occurrences, applying the
structopt attributes of main.rs: `iterations` carries
`default_value = "0"` (used when the option is absent). -/
def CouncilConfig.fromArgs (count : Option Nat) (output : Option String)
    (iterations : Option Nat) : CouncilConfig :=
  { count := count
    output := output
    iterations := iterations.getD 0 }

/-- The long option names accepted by the `staking` sub-command: exactly the
structopt fields of `StakingConfig` in main.rs. -/
def stakingOptionNames : List String :=
  ["count", "max", "input", "output", "iterations", "reduce"]

/-- The option names accepted by the `council` sub-command: exactly the
structopt fields of `CouncilConfig` in main.rs. -/
def councilOptionNames : List String :=
  ["count", "output", "iterations"]

/-- `SubCommands` (main.rs lines 220-255). -/
inductive SubCommands where
  | staking (conf : StakingConfig)
  | council (conf : CouncilConfig)
  | current
  | next
  | commandCenter
  | danglingNominators
  | nominatorCheck (who : AccountId)
  | validatorCheck (who : AccountId)
deriving DecidableEq, Repr

/-- `Opt` (main.rs lines 190-218): the top-level argument structure.  The
Rust field `at` is named `at_` because `at` is reserved in Lean. -/
structure Opt where
  at_ : Option Hash
  uri : String
  network : Option String
  verbosity : Nat
  cmd : SubCommands
deriving DecidableEq, Repr

/-- `Ss58AddressFormat` variants that main.rs matches on. -/
inductive Ss58AddressFormat where
  | polkadotAccount
  | kusamaAccount
  | darwiniaAccount
  | substrateAccount
deriving DecidableEq, Repr

/-- The `match &network_address[..]` of main.rs lines 327-333: the accepted
network strings, `none` standing for the `panic!` arm. -/
def resolveAddressFormat (s : String) : Option Ss58AddressFormat :=
  if s = "polkadot" then some .polkadotAccount
  else if s = "kusama" then some .kusamaAccount
  else if s = "darwinia" then some .darwiniaAccount
  else if s = "substrate" then some .substrateAccount
  else none

/-- The mutable state of the `sub_tokens::dynamic` token library touched by
main.rs: the network string, the token display name and the decimal-points
scaling.  Initial values are the library defaults (the library is an
external dependency, so the defaults stay abstract). -/
structure TokenSettings where
  network : Option String
  name : String
  decimalPoints : Nat
deriving DecidableEq, Repr

/-- Lines 338-344 of main.rs: the token display name and decimal points are
set for the polkadot and darwinia address formats only. -/
def applyTokenConfig (fmt : Ss58AddressFormat) (tok : TokenSettings) : TokenSettings :=
  if fmt = .polkadotAccount then
    { tok with name := "DOT", decimalPoints := 10000000000 }
  else if fmt = .darwiniaAccount then
    { tok with name := "POWER", decimalPoints := 1000 }
  else tok

/-- The possible §7 fatal error classes of the specification's taxonomy. -/
inductive Section7Error where
  | dataFetchError
  | insufficientCandidatesError
  | internalInvariantViolation
  | writeError
deriving DecidableEq, Repr

/-- How a run of `main` can end, as far as the startup code of main.rs is
concerned. -/
inductive MainOutcome where
  /-- The `panic!` arm of the network match (main.rs line 332). -/
  | panicInvalidNetwork
  /-- The `.unwrap()` of `opt.network` on main.rs line 337 hit `None`. -/
  | panicMissingNetworkOption
  /-- An `unimplemented!()` arm of the dispatch (main.rs lines 363, 371). -/
  | panicUnimplemented
  /-- Aborting through one of the specification's §7 error classes
  (never produced by the startup code itself). -/
  | failedWith (e : Section7Error)
  /-- Control reached the sub-command body. -/
  | ranSubcommand (cmd : SubCommands)
deriving DecidableEq, Repr

/-- Whether the outcome is an unrecoverable abort (a Rust panic). -/
def MainOutcome.isPanic : MainOutcome → Bool
  | .panicInvalidNetwork => true
  | .panicMissingNetworkOption => true
  | .panicUnimplemented => true
  | .failedWith _ => false
  | .ranSubcommand _ => false

/-- Whether the outcome can produce an election result (only a dispatched
`staking` or `council` sub-command computes one). -/
def MainOutcome.producesResult : MainOutcome → Bool
  | .ranSubcommand (.staking _) => true
  | .ranSubcommand (.council _) => true
  | _ => false

/-- Process exit code of the outcome: Rust panics exit with code 101,
a dispatched sub-command body exits 0 on success, and a §7 abort is
non-zero. -/
def MainOutcome.exitCode : MainOutcome → Nat
  | .panicInvalidNetwork => 101
  | .panicMissingNetworkOption => 101
  | .panicUnimplemented => 101
  | .failedWith _ => 1
  | .ranSubcommand _ => 0

/-- The startup portion of `main` (main.rs lines 302-378) after the node
connection and head fetch succeeded: resolves the network address format
(falling back to the runtime `spec_name`), configures the token library,
and dispatches the sub-command.  `set_default_ss58_version` touches no
state modelled here and is omitted. -/
def mainStartup (opt : Opt) (specName : String) (tok : TokenSettings) :
    MainOutcome × TokenSettings :=
  match resolveAddressFormat (opt.network.getD specName) with
  | none => (.panicInvalidNetwork, tok)
  | some fmt =>
    match opt.network with
    | none => (.panicMissingNetworkOption, tok)
    | some net =>
      let tok1 := applyTokenConfig fmt { tok with network := some net }
      match opt.cmd with
      | .next => (.panicUnimplemented, tok1)
      | .commandCenter => (.panicUnimplemented, tok1)
      | c => (.ranSubcommand c, tok1)

/-- A sample token-settings value standing for the library defaults. -/
def sampleTok : TokenSettings := ⟨none, "UNIT", 1⟩

/-- A sample `staking` sub-command value. -/
def sampleStakingCmd : SubCommands :=
  .staking (StakingConfig.fromArgs none none none none none false)

/-! ### Claims C5 to C10, about `main.rs` -/

/-- C5, counterexample: on the invocation whose resolved network string is
`westend` (not an accepted address format), startup does not return a
handleable configuration error: it ends in the unrecoverable
`panic!` of main.rs line 332. -/
theorem c5_invalid_network_typed_error_counterexample :
    (mainStartup ⟨none, "ws://localhost:9944", some "westend", 0, .current⟩
        "polkadot" sampleTok).1 = .panicInvalidNetwork ∧
    (mainStartup ⟨none, "ws://localhost:9944", some "westend", 0, .current⟩
        "polkadot" sampleTok).1.isPanic = true := by
  constructor <;> rfl

/-- C5, amended: for every invocation whose resolved network string is not
one of the accepted address formats, startup aborts with the unrecoverable
`Invalid network/address format.` panic (main.rs line 332); no typed
configuration error is returned. -/
theorem c5_invalid_network_panics (opt : Opt) (specName : String)
    (tok : TokenSettings)
    (h : resolveAddressFormat (opt.network.getD specName) = none) :
    (mainStartup opt specName tok).1 = .panicInvalidNetwork ∧
    (mainStartup opt specName tok).1.isPanic = true := by
  unfold mainStartup
  rw [h]
  exact ⟨rfl, rfl⟩

/-- C5, witness for the amended theorem at a concrete invocation. -/
theorem c5_invalid_network_panics_witness :
    (mainStartup ⟨none, "u", some "edgeware", 2, .current⟩ "kusama" sampleTok).1
      = .panicInvalidNetwork ∧
    (mainStartup ⟨none, "u", some "edgeware", 2, .current⟩ "kusama" sampleTok).1.isPanic
      = true :=
  c5_invalid_network_panics _ _ _ (by decide)

/-- C6: whenever the `--network` option is omitted, main panics before any
sub-command runs: if the runtime spec name resolves to an accepted address
format (so the fallback of main.rs line 326 succeeded), the panic is the
`.unwrap()` of `None` at main.rs line 337 while configuring the token
network; in every case the outcome is a panic, so the documented fallback
never completes for any sub-command. -/
theorem c6_missing_network_unwrap_panics (opt : Opt) (specName : String)
    (tok : TokenSettings) (hnet : opt.network = none) :
    ((resolveAddressFormat specName).isSome = true →
      (mainStartup opt specName tok).1 = .panicMissingNetworkOption) ∧
    (mainStartup opt specName tok).1.isPanic = true := by
  unfold mainStartup
  rw [hnet]
  cases h : resolveAddressFormat specName with
  | none => simp [h, MainOutcome.isPanic]
  | some fmt => simp [h, MainOutcome.isPanic]

/-- C6, witness: a concrete invocation of the `staking` sub-command with
`--network` omitted and a resolvable spec name hits the unwrap panic. -/
theorem c6_missing_network_unwrap_panics_witness :
    ((resolveAddressFormat "kusama").isSome = true →
      (mainStartup ⟨none, "ws://localhost:9944", none, 0, sampleStakingCmd⟩
          "kusama" sampleTok).1 = .panicMissingNetworkOption) ∧
    (mainStartup ⟨none, "ws://localhost:9944", none, 0, sampleStakingCmd⟩
        "kusama" sampleTok).1.isPanic = true :=
  c6_missing_network_unwrap_panics _ _ _ rfl

/-- C9, counterexample: an invocation of the `next` sub-command with
`--network` omitted does not terminate through the `unimplemented!` panic:
it dies earlier, on the unwrap of the missing network option. -/
theorem c9_next_unimplemented_counterexample :
    (mainStartup ⟨none, "ws://localhost:9944", none, 0, .next⟩
        "polkadot" sampleTok).1 ≠ .panicUnimplemented ∧
    (mainStartup ⟨none, "ws://localhost:9944", none, 0, .next⟩
        "polkadot" sampleTok).1 = .panicMissingNetworkOption := by
  constructor
  · intro h
    exact absurd h (by decide)
  · rfl

/-- C9, amended: every invocation of the `next` or `command-center`
sub-command that passes the startup network configuration (an accepted
`--network` value was supplied) terminates via the `unimplemented!` panic
after connecting to the node, produces no election result, exits non-zero,
and does not abort through any error of the specification's §7 taxonomy. -/
theorem c9_next_command_center_unimplemented (opt : Opt) (specName net : String)
    (tok : TokenSettings)
    (hcmd : opt.cmd = .next ∨ opt.cmd = .commandCenter)
    (hnet : opt.network = some net)
    (hfmt : (resolveAddressFormat net).isSome = true) :
    (mainStartup opt specName tok).1 = .panicUnimplemented ∧
    (mainStartup opt specName tok).1.producesResult = false ∧
    (mainStartup opt specName tok).1.exitCode ≠ 0 ∧
    ∀ e : Section7Error, (mainStartup opt specName tok).1 ≠ .failedWith e := by
  unfold mainStartup
  rw [hnet]
  rcases Option.isSome_iff_exists.mp hfmt with ⟨fmt, hf⟩
  simp only [Option.getD_some, hf]
  rcases hcmd with h | h <;>
    simp [h, MainOutcome.producesResult, MainOutcome.exitCode]

/-- C9, witness for the amended theorem at a concrete invocation of
`command-center` with `--network polkadot`. -/
theorem c9_next_command_center_unimplemented_witness :
    (mainStartup ⟨none, "u", some "polkadot", 0, .commandCenter⟩
        "kusama" sampleTok).1 = .panicUnimplemented ∧
    (mainStartup ⟨none, "u", some "polkadot", 0, .commandCenter⟩
        "kusama" sampleTok).1.producesResult = false ∧
    (mainStartup ⟨none, "u", some "polkadot", 0, .commandCenter⟩
        "kusama" sampleTok).1.exitCode ≠ 0 ∧
    ∀ e : Section7Error,
      (mainStartup ⟨none, "u", some "polkadot", 0, .commandCenter⟩
          "kusama" sampleTok).1 ≠ .failedWith e :=
  c9_next_command_center_unimplemented _ _ _ _ (Or.inr rfl) rfl (by decide)

/-- C10: main modifies the token display name and the decimal-points
scaling only when the resolved address format is polkadot (becoming `DOT`
with scaling 10000000000) or darwinia (becoming `POWER` with scaling
1000); when the resolved format is kusama or substrate, both settings keep
the token library's defaults. -/
theorem c10_token_settings_only_polkadot_darwinia (opt : Opt)
    (specName : String) (tok : TokenSettings) :
    (((mainStartup opt specName tok).2.name = tok.name ∧
      (mainStartup opt specName tok).2.decimalPoints = tok.decimalPoints) ∨
     (resolveAddressFormat (opt.network.getD specName) = some .polkadotAccount ∧
      (mainStartup opt specName tok).2.name = "DOT" ∧
      (mainStartup opt specName tok).2.decimalPoints = 10000000000) ∨
     (resolveAddressFormat (opt.network.getD specName) = some .darwiniaAccount ∧
      (mainStartup opt specName tok).2.name = "POWER" ∧
      (mainStartup opt specName tok).2.decimalPoints = 1000)) ∧
    ((resolveAddressFormat (opt.network.getD specName) = some .kusamaAccount ∨
      resolveAddressFormat (opt.network.getD specName) = some .substrateAccount) →
     (mainStartup opt specName tok).2.name = tok.name ∧
     (mainStartup opt specName tok).2.decimalPoints = tok.decimalPoints) := by
  unfold mainStartup
  cases h : resolveAddressFormat (opt.network.getD specName) with
  | none => simp [h]
  | some fmt =>
    cases hn : opt.network with
    | none => simp [h, hn]
    | some net =>
      cases fmt <;>
        cases hc : opt.cmd <;>
          simp [h, hn, hc, applyTokenConfig]

/-- C10, witness: with `--network kusama`, the token settings are left at
the library defaults. -/
theorem c10_token_settings_only_polkadot_darwinia_witness :
    (mainStartup ⟨none, "u", some "kusama", 0, .current⟩ "x" sampleTok).2.name
      = sampleTok.name ∧
    (mainStartup ⟨none, "u", some "kusama", 0, .current⟩ "x" sampleTok).2.decimalPoints
      = sampleTok.decimalPoints :=
  (c10_token_settings_only_polkadot_darwinia _ _ _).2 (Or.inl (by decide))

/-- C7, counterexample: the claim that both the `staking` and the `council`
sub-commands accept a `reduce` flag and an `input` snapshot option is
false: the `council` option set (`CouncilConfig`) contains neither. -/
theorem c7_council_reduce_input_counterexample :
    ¬ (("reduce" ∈ stakingOptionNames ∧ "input" ∈ stakingOptionNames) ∧
       ("reduce" ∈ councilOptionNames ∧ "input" ∈ councilOptionNames)) := by
  decide

/-- C7, amended: the `staking` sub-command accepts the winner count,
voter-cap, input-snapshot, output-path, balancing-iteration and reduce
options, while the `council` sub-command accepts only the winner count,
output path and balancing-iteration options: no reduce flag and no
input-snapshot file. -/
theorem c7_staking_council_option_surface :
    "count" ∈ stakingOptionNames ∧ "max" ∈ stakingOptionNames ∧
    "input" ∈ stakingOptionNames ∧ "output" ∈ stakingOptionNames ∧
    "iterations" ∈ stakingOptionNames ∧ "reduce" ∈ stakingOptionNames ∧
    "count" ∈ councilOptionNames ∧ "output" ∈ councilOptionNames ∧
    "iterations" ∈ councilOptionNames ∧
    "reduce" ∉ councilOptionNames ∧ "input" ∉ councilOptionNames := by
  decide

/-- C8: for both the `staking` and the `council` sub-commands, when the
balancing-iteration option is not supplied, the parsed configuration has
`iterations = 0` (the structopt `default_value` of main.rs lines 277 and
298). -/
theorem c8_iterations_default_zero (count max ccount : Option Nat)
    (input output coutput : Option String) (reduceFlagPresent : Bool) :
    (StakingConfig.fromArgs count max input output none reduceFlagPresent).iterations = 0 ∧
    (CouncilConfig.fromArgs ccount coutput none).iterations = 0 :=
  ⟨rfl, rfl⟩

/-! ### Election pipeline

The bodies of the `staking` and `council` sub-commands (modules
`subcommands`, `network`, `primitives` of this repository) are not present
under `src/`, so the pipeline below is modelled from the specification:
its data model (§3), the Election Driver contract (§4.3: sequential
selection by lowest marginal load per unit backing with ties broken by
candidate identity, exactly `r` balancing rounds, `InsufficientCandidates`
when fewer candidates than seats), the Reducer contract (§4.4) and the
Result Exporter's deterministic sort order (§4.5). -/

/-- Modelled from the spec (§3): a voter, with its identity handle, its
normalized voting weight (stake) and its ordered list of targets. -/
structure Voter where
  id : Nat
  stake : Nat
  targets : List Nat
deriving DecidableEq, Repr

/-- Modelled from the spec (§3): the immutable input graph of one
election: the candidate identities and the voters. -/
structure Snapshot where
  candidates : List Nat
  voters : List Voter
deriving DecidableEq, Repr

/-- Approval stake of candidate `c`: the total stake of the voters that
nominate it (spec §3, a derived accumulator). -/
def approval (voters : List Voter) (c : Nat) : ℚ :=
  ((voters.filter fun v => c ∈ v.targets).map fun v => (v.stake : ℚ)).sum

/-- The running load of voter `v`, given the candidates elected so far in
election order, each with the score of its round: the score of the most
recently elected candidate that `v` nominates, `0` when none is elected
yet. -/
def loadOf (ws : List (Nat × ℚ)) (v : Voter) : ℚ :=
  ((ws.filter fun w => w.1 ∈ v.targets).map Prod.snd).getLastD 0

/-- Numerator of the marginal-load score of candidate `c`:
`1 + Σ stake_v * load_v` over the voters nominating `c` (spec §4.3:
marginal load per unit backing). -/
def scoreNum (voters : List Voter) (ws : List (Nat × ℚ)) (c : Nat) : ℚ :=
  1 + ((voters.filter fun v => c ∈ v.targets).map
        fun v => (v.stake : ℚ) * loadOf ws v).sum

/-- The score recorded for candidate `c` when it is elected: the marginal
load per unit backing.  A candidate with zero approval gets score `0`
(its supporting voters, if any, all have zero stake, so this value never
feeds a later score). -/
def scoreValue (voters : List Voter) (ws : List (Nat × ℚ)) (c : Nat) : ℚ :=
  if approval voters c = 0 then 0
  else scoreNum voters ws c / approval voters c

/-- Selection order of one round (spec §4.3): candidate `a` is elected
before candidate `b` when its marginal load per unit backing is strictly
lower, ties broken by the candidate identity ordering; a candidate with
zero approval (infinite marginal load) ranks after every candidate with
positive approval. -/
def candBetter (voters : List Voter) (ws : List (Nat × ℚ)) (a b : Nat) : Bool :=
  if approval voters a = 0 then
    if approval voters b = 0 then decide (a < b) else false
  else
    if approval voters b = 0 then true
    else
      decide (scoreNum voters ws a / approval voters a
                < scoreNum voters ws b / approval voters b
              ∨ (scoreNum voters ws a / approval voters a
                  = scoreNum voters ws b / approval voters b
                 ∧ a < b))

/-- The candidate elected in one round: the minimum of the remaining
candidates in the `candBetter` order. -/
def selectMin (voters : List Voter) (ws : List (Nat × ℚ)) :
    List Nat → Option Nat
  | [] => none
  | c :: cs =>
    some (cs.foldl (fun best x => if candBetter voters ws x best then x else best) c)

/-- The round loop of sequential selection: elect the `candBetter`-minimal
remaining candidate, record its score, and repeat until `k` rounds are
done or the candidates are exhausted (spec §4.3 step 1). -/
def seqPhragmenLoop (voters : List Voter) :
    Nat → List Nat → List (Nat × ℚ) → List (Nat × ℚ)
  | 0, _, ws => ws
  | Nat.succ n, rem, ws =>
    match selectMin voters ws rem with
    | none => ws
    | some c =>
      seqPhragmenLoop voters n (rem.erase c) (ws ++ [(c, scoreValue voters ws c)])

/-- Sequential selection: `k` rounds starting from the full candidate list
and no recorded winners. -/
def seqPhragmen (voters : List Voter) (candidates : List Nat) (k : Nat) :
    List (Nat × ℚ) :=
  seqPhragmenLoop voters k candidates []

/-- Load increments along a voter's elected targets: each elected target is
paired with the difference between the score of its round and the score of
the voter's previously elected target. -/
def incrAux (prev : ℚ) : List (Nat × ℚ) → List (Nat × ℚ)
  | [] => []
  | (c, t) :: rest => (c, t - prev) :: incrAux t rest

/-- The post-election distribution of one voter (spec §3): the voter's
stake is apportioned across its elected targets, proportionally to the
load increments relative to its final load. -/
def weightsOfVoter (ws : List (Nat × ℚ)) (v : Voter) : List (Nat × ℚ) :=
  if ((ws.filter fun w => w.1 ∈ v.targets).map Prod.snd).getLastD 0 = 0 then []
  else
    (incrAux 0 (ws.filter fun w => w.1 ∈ v.targets)).map
      fun p => (p.1, (v.stake : ℚ) * p.2
        / ((ws.filter fun w => w.1 ∈ v.targets).map Prod.snd).getLastD 0)

/-- Modelled from the spec (§4.3 step 2): one balancing round
redistributes a voter's committed weight among that voter's elected
targets; the per-voter redistribution is modelled as an even
re-apportioning of the voter's committed total across its elected
targets.  The voter's committed total is unchanged. -/
def balanceVoterRound (d : List (Nat × ℚ)) : List (Nat × ℚ) :=
  match d with
  | [] => []
  | _ =>
    d.map fun p => (p.1, (d.map Prod.snd).sum / (d.length : ℚ))

/-- Exactly `r` balancing rounds over one voter's distribution. -/
def balanceVoterRounds : Nat → List (Nat × ℚ) → List (Nat × ℚ)
  | 0, d => d
  | Nat.succ n, d => balanceVoterRounds n (balanceVoterRound d)

/-- A weighted support edge: voter identity, candidate identity, weight. -/
abbrev Edge := Nat × Nat × ℚ

/-- The deterministic output order of edges (spec §4.5: by candidate
identity then voter identity; the full triple is compared so the order is
antisymmetric): here lexicographic on (voter, candidate, weight). -/
def edgeLe (a b : Edge) : Prop :=
  a.1 < b.1 ∨ (a.1 = b.1 ∧ (a.2.1 < b.2.1 ∨ (a.2.1 = b.2.1 ∧ a.2.2 ≤ b.2.2)))

instance : DecidableRel edgeLe := fun a b => by
  unfold edgeLe
  infer_instance

instance : IsTotal Edge edgeLe where
  total a b := by
    unfold edgeLe
    rcases lt_trichotomy a.1 b.1 with h | h | h
    · exact Or.inl (Or.inl h)
    · rcases lt_trichotomy a.2.1 b.2.1 with h2 | h2 | h2
      · exact Or.inl (Or.inr ⟨h, Or.inl h2⟩)
      · rcases le_total a.2.2 b.2.2 with h3 | h3
        · exact Or.inl (Or.inr ⟨h, Or.inr ⟨h2, h3⟩⟩)
        · exact Or.inr (Or.inr ⟨h.symm, Or.inr ⟨h2.symm, h3⟩⟩)
      · exact Or.inr (Or.inr ⟨h.symm, Or.inl h2⟩)
    · exact Or.inr (Or.inl h)

instance : IsTrans Edge edgeLe where
  trans a b c hab hbc := by
    unfold edgeLe at hab hbc ⊢
    rcases hab with h | ⟨e1, h⟩
    · rcases hbc with h' | ⟨e1', _⟩
      · exact Or.inl (h.trans h')
      · exact Or.inl (e1' ▸ h)
    · rcases hbc with h' | ⟨e1', h'⟩
      · exact Or.inl (e1 ▸ h')
      · refine Or.inr ⟨e1.trans e1', ?_⟩
        rcases h with h2 | ⟨e2, h3⟩
        · rcases h' with h2' | ⟨e2', _⟩
          · exact Or.inl (h2.trans h2')
          · exact Or.inl (e2' ▸ h2)
        · rcases h' with h2' | ⟨e2', h3'⟩
          · exact Or.inl (e2 ▸ h2')
          · exact Or.inr ⟨e2.trans e2', h3.trans h3'⟩

instance : IsAntisymm Edge edgeLe where
  antisymm a b hab hba := by
    unfold edgeLe at hab hba
    rcases hab with h | ⟨e1, h⟩
    · rcases hba with h' | ⟨e1', _⟩
      · exact absurd (h.trans h') (lt_irrefl _)
      · exact absurd h (e1' ▸ lt_irrefl _)
    · rcases hba with h' | ⟨e1', h'⟩
      · exact absurd h' (e1 ▸ lt_irrefl _)
      · rcases h with h2 | ⟨e2, h3⟩
        · rcases h' with h2' | ⟨e2', _⟩
          · exact absurd (h2.trans h2') (lt_irrefl _)
          · exact absurd h2 (e2' ▸ lt_irrefl _)
        · rcases h' with h2' | ⟨e2', h3'⟩
          · exact absurd h2' (e2 ▸ lt_irrefl _)
          · have : a.2.2 = b.2.2 := le_antisymm h3 h3'
            rcases a with ⟨a1, a2, a3⟩
            rcases b with ⟨b1, b2, b3⟩
            simp_all

/-- Modelled from the spec (§3, §4.3): the election result, `winners` in
election order together with the support edges in the exporter's
deterministic order. -/
structure ElectionResult where
  winners : List Nat
  edges : List Edge
deriving DecidableEq, Repr

/-- Modelled from the spec (§7): the fatal error of the Election Driver. -/
inductive ElectionError where
  | insufficientCandidates
deriving DecidableEq, Repr

/-- Modelled from the spec (§4.3): the Election Driver.  Fails with
`InsufficientCandidates` when fewer eligible candidates exist than the `k`
requested winners; otherwise runs sequential selection, apportions each
voter's stake over its elected targets, applies exactly `r` balancing
rounds per voter, and emits the edges in the deterministic output order. -/
def electionDriver (snap : Snapshot) (k r : Nat) :
    Except ElectionError ElectionResult :=
  if snap.candidates.length < k then .error .insufficientCandidates
  else
    .ok
      { winners := (seqPhragmen snap.voters snap.candidates k).map Prod.fst
        edges := List.insertionSort edgeLe
          (snap.voters.flatMap fun v =>
            (balanceVoterRounds r
                (weightsOfVoter (seqPhragmen snap.voters snap.candidates k) v)).map
              fun p => (v.id, p.1, p.2)) }

/-- Sum of the outgoing edge weights of the voter with identity `vid`. -/
def voterTotal (vid : Nat) (es : List Edge) : ℚ :=
  (es.map fun e => if e.1 = vid then e.2.2 else 0).sum

/-- Total backing of the candidate with identity `cid`. -/
def candTotal (cid : Nat) (es : List Edge) : ℚ :=
  (es.map fun e => if e.2.1 = cid then e.2.2 else 0).sum

/-- Whether the four positions `i j p q` of the edge list form a reducible
cycle of the bipartite support graph: `i` and `j` are edges of one voter,
`p` and `q` of a different voter, to the same pair of distinct candidates,
all four with positive weight (spec §4.4). -/
def isCycleAt (es : List Edge) (i j p q : Nat) : Bool :=
  match es[i]?, es[j]?, es[p]?, es[q]? with
  | some a, some b, some c, some d =>
    decide (a.1 = b.1 ∧ c.1 = d.1 ∧ a.1 ≠ c.1 ∧
      a.2.1 = c.2.1 ∧ b.2.1 = d.2.1 ∧ a.2.1 ≠ b.2.1 ∧
      0 < a.2.2 ∧ 0 < b.2.2 ∧ 0 < c.2.2 ∧ 0 < d.2.2)
  | _, _, _, _ => false

/-- All position quadruples of an edge list, in a fixed scan order. -/
def cycleCandidates (es : List Edge) : List (Nat × Nat × Nat × Nat) :=
  (List.range es.length).flatMap fun i =>
    (List.range es.length).flatMap fun j =>
      (List.range es.length).flatMap fun p =>
        (List.range es.length).map fun q => (i, j, p, q)

/-- Modelled from the spec (§4.4): cycle detection in the bipartite
voter-candidate support graph, returning the first reducible cycle in the
scan order. -/
def findCycle (es : List Edge) : Option (Nat × Nat × Nat × Nat) :=
  (cycleCandidates es).find? fun t => isCycleAt es t.1 t.2.1 t.2.2.1 t.2.2.2

/-- Modelled from the spec (§4.4): cancelling one cycle.  The minimum
weight on one diagonal of the cycle is moved around it: subtracted from
the edges (voter₁, cand₁) and (voter₂, cand₂), added to (voter₁, cand₂)
and (voter₂, cand₁); the edge that reaches weight `0` is removed.  No
voter total and no candidate total changes. -/
def cancelCycle (es : List Edge) (i j p q : Nat) : List Edge :=
  match es[i]?, es[j]?, es[p]?, es[q]? with
  | some a, some b, some c, some d =>
    ((((es.set i (a.1, a.2.1, a.2.2 - min a.2.2 d.2.2)).set
        q (d.1, d.2.1, d.2.2 - min a.2.2 d.2.2)).set
        j (b.1, b.2.1, b.2.2 + min a.2.2 d.2.2)).set
        p (c.1, c.2.1, c.2.2 + min a.2.2 d.2.2)).filter
      fun e => e.2.2 ≠ 0
  | _, _, _, _ => es

/-- The reduction loop: cancel the first cycle found, repeat.  Each
cancellation removes at least one edge, so `fuel` bounded by the edge
count reaches the cycle-free fixpoint. -/
def reduceFuel : Nat → List Edge → List Edge
  | 0, es => es
  | Nat.succ n, es =>
    match findCycle es with
    | none => es
    | some t => reduceFuel n (cancelCycle es t.1 t.2.1 t.2.2.1 t.2.2.2)

/-- Modelled from the spec (§4.4): the Reducer on the edge list. -/
def reduceEdges (es : List Edge) : List Edge :=
  reduceFuel es.length es

/-- Modelled from the spec (§4.4): the Reducer on an election result
(edge removal only; the winner set is untouched). -/
def reduceResult (x : ElectionResult) : ElectionResult :=
  { x with edges := reduceEdges x.edges }

/-! ### Winner-count lemmas (claim C1) -/

lemma foldl_best_mem (voters : List Voter) (ws : List (Nat × ℚ)) :
    ∀ (cs : List Nat) (acc : Nat),
      cs.foldl (fun best x => if candBetter voters ws x best then x else best) acc
        ∈ acc :: cs := by
  intro cs
  induction cs with
  | nil => intro acc; simp
  | cons y ys ih =>
    intro acc
    simp only [List.foldl_cons]
    have h := ih (if candBetter voters ws y acc then y else acc)
    rcases List.mem_cons.mp h with h1 | h1
    · by_cases hc : candBetter voters ws y acc = true
      · rw [if_pos hc] at h1 ⊢
        rw [h1]
        simp
      · rw [if_neg hc] at h1 ⊢
        rw [h1]
        simp
    · simp [h1]

lemma selectMin_mem {voters : List Voter} {ws : List (Nat × ℚ)} {l : List Nat}
    {c : Nat} (h : selectMin voters ws l = some c) : c ∈ l := by
  cases l with
  | nil => simp [selectMin] at h
  | cons x xs =>
    simp only [selectMin, Option.some_inj] at h
    have := foldl_best_mem voters ws xs x
    rwa [h] at this

lemma selectMin_eq_none_iff {voters : List Voter} {ws : List (Nat × ℚ)}
    {l : List Nat} : selectMin voters ws l = none ↔ l = [] := by
  cases l <;> simp [selectMin]

lemma seqPhragmenLoop_length (voters : List Voter) :
    ∀ (n : Nat) (rem : List Nat) (ws : List (Nat × ℚ)),
      (seqPhragmenLoop voters n rem ws).length = ws.length + min n rem.length := by
  intro n
  induction n with
  | zero => intro rem ws; simp [seqPhragmenLoop]
  | succ n ih =>
    intro rem ws
    rw [seqPhragmenLoop]
    cases hm : selectMin voters ws rem with
    | none =>
      have : rem = [] := selectMin_eq_none_iff.mp hm
      subst this
      simp
    | some c =>
      have hc : c ∈ rem := selectMin_mem hm
      have hne : rem ≠ [] := by rintro rfl; cases hc
      obtain ⟨m, hm'⟩ : ∃ m, rem.length = m + 1 :=
        ⟨rem.length - 1, by
          cases rem with
          | nil => exact absurd rfl hne
          | cons a l => simp⟩
      rw [ih]
      rw [List.length_erase_of_mem hc, List.length_append, hm']
      simp only [List.length_cons, List.length_nil, Nat.add_sub_cancel]
      rw [Nat.succ_min_succ]
      omega

/-- C1: the Election Driver fails with `InsufficientCandidates` whenever
fewer eligible candidates exist than the `k` requested winners, and every
successful run elects exactly `min k (number of eligible candidates)`
winners. -/
theorem c1_winner_count_bound (snap : Snapshot) (k r : Nat) :
    (snap.candidates.length < k →
      electionDriver snap k r = .error .insufficientCandidates) ∧
    (∀ res : ElectionResult, electionDriver snap k r = .ok res →
      res.winners.length = min k snap.candidates.length) := by
  constructor
  · intro h
    simp [electionDriver, h]
  · intro res hres
    by_cases h : snap.candidates.length < k
    · simp [electionDriver, h] at hres
    · simp only [electionDriver, if_neg h, Except.ok.injEq] at hres
      rw [← hres]
      simp only [List.length_map]
      rw [seqPhragmen, seqPhragmenLoop_length]
      simp

/-- C1, witness: a concrete snapshot with three candidates.  Requesting
five winners fails with `InsufficientCandidates`; requesting two winners
succeeds with exactly two winners. -/
theorem c1_winner_count_bound_witness :
    electionDriver ⟨[1, 2, 3], [⟨10, 100, [1, 2]⟩, ⟨11, 50, [2, 3]⟩]⟩ 5 0
      = .error .insufficientCandidates :=
  (c1_winner_count_bound ⟨[1, 2, 3], [⟨10, 100, [1, 2]⟩, ⟨11, 50, [2, 3]⟩]⟩ 5 0).1
    (by decide)

/-! ### Stake-conservation lemmas (claim C3) -/

lemma incrAux_snd_sum : ∀ (l : List (Nat × ℚ)) (prev : ℚ),
    ((incrAux prev l).map Prod.snd).sum = (l.map Prod.snd).getLastD prev - prev := by
  intro l
  induction l with
  | nil => intro prev; simp [incrAux]
  | cons x xs ih =>
    intro prev
    rcases x with ⟨c, t⟩
    simp only [incrAux, List.map_cons, List.sum_cons, List.getLastD_cons, ih t]
    ring

lemma sum_map_mul_div (l : List ℚ) (a b : ℚ) :
    (l.map fun x => a * x / b).sum = a * l.sum / b := by
  induction l with
  | nil => simp
  | cons x xs ih =>
    simp only [List.map_cons, List.sum_cons, ih]
    rw [mul_add, add_div]

lemma sum_map_constant (l : List (Nat × ℚ)) (c : ℚ) :
    (l.map fun _ => c).sum = (l.length : ℚ) * c := by
  induction l with
  | nil => simp
  | cons x xs ih =>
    simp only [List.map_cons, List.sum_cons, ih, List.length_cons]
    push_cast
    ring

lemma weightsOfVoter_snd_sum_le (ws : List (Nat × ℚ)) (v : Voter) :
    ((weightsOfVoter ws v).map Prod.snd).sum ≤ (v.stake : ℚ) := by
  unfold weightsOfVoter
  by_cases h : ((ws.filter fun w => w.1 ∈ v.targets).map Prod.snd).getLastD 0 = 0
  · rw [if_pos h]
    simp
  · rw [if_neg h, List.map_map]
    have hcomp : (Prod.snd ∘ fun p : Nat × ℚ => (p.1, (v.stake : ℚ) * p.2
          / ((ws.filter fun w => w.1 ∈ v.targets).map Prod.snd).getLastD 0))
        = (fun x : ℚ => (v.stake : ℚ) * x
          / ((ws.filter fun w => w.1 ∈ v.targets).map Prod.snd).getLastD 0) ∘ Prod.snd := rfl
    rw [hcomp, ← List.map_map, sum_map_mul_div, incrAux_snd_sum, sub_zero,
      mul_div_assoc, div_self h, mul_one]

lemma balanceVoterRound_snd_sum (d : List (Nat × ℚ)) :
    ((balanceVoterRound d).map Prod.snd).sum = (d.map Prod.snd).sum := by
  cases d with
  | nil => rfl
  | cons x xs =>
    simp only [balanceVoterRound, List.map_map]
    have hcomp : (Prod.snd ∘ fun p : Nat × ℚ =>
        (p.1, ((x :: xs).map Prod.snd).sum / ((x :: xs).length : ℚ)))
        = fun _ : Nat × ℚ => ((x :: xs).map Prod.snd).sum / ((x :: xs).length : ℚ) := rfl
    rw [hcomp, sum_map_constant, mul_div_cancel₀]
    exact Nat.cast_ne_zero.mpr (by simp)

lemma balanceVoterRounds_snd_sum (r : Nat) :
    ∀ d : List (Nat × ℚ),
      ((balanceVoterRounds r d).map Prod.snd).sum = (d.map Prod.snd).sum := by
  induction r with
  | zero => intro d; rfl
  | succ n ih =>
    intro d
    rw [balanceVoterRounds, ih, balanceVoterRound_snd_sum]

lemma voterTotal_append (vid : Nat) (l1 l2 : List Edge) :
    voterTotal vid (l1 ++ l2) = voterTotal vid l1 + voterTotal vid l2 := by
  simp [voterTotal]

lemma voterTotal_tagged (vid uid : Nat) (d : List (Nat × ℚ)) :
    voterTotal vid (d.map fun p => (uid, p.1, p.2))
      = if uid = vid then (d.map Prod.snd).sum else 0 := by
  unfold voterTotal
  rw [List.map_map]
  by_cases h : uid = vid
  · rw [if_pos h]
    subst h
    have hfun : ((fun e : Edge => if e.1 = uid then e.2.2 else 0)
        ∘ fun p : Nat × ℚ => (uid, p.1, p.2)) = Prod.snd := by
      funext p
      simp
    rw [hfun]
  · rw [if_neg h]
    have hfun : ((fun e : Edge => if e.1 = vid then e.2.2 else 0)
        ∘ fun p : Nat × ℚ => (uid, p.1, p.2)) = fun _ => (0 : ℚ) := by
      funext p
      simp [h]
    rw [hfun, sum_map_constant, mul_zero]

lemma voterTotal_flatMap_zero (vid : Nat) (g : Voter → List (Nat × ℚ)) :
    ∀ us : List Voter, (∀ u ∈ us, u.id ≠ vid) →
      voterTotal vid (us.flatMap fun u => (g u).map fun p => (u.id, p.1, p.2)) = 0 := by
  intro us
  induction us with
  | nil => intro _; simp [voterTotal]
  | cons u rest ih =>
    intro h
    rw [List.flatMap_cons, voterTotal_append, voterTotal_tagged,
      if_neg (h u (List.mem_cons_self u rest)), zero_add]
    exact ih fun x hx => h x (List.mem_cons_of_mem u hx)

lemma voterTotal_flatMap_nodup (v : Voter) (g : Voter → List (Nat × ℚ)) :
    ∀ voters : List Voter, v ∈ voters → (voters.map Voter.id).Nodup →
      voterTotal v.id (voters.flatMap fun u => (g u).map fun p => (u.id, p.1, p.2))
        = ((g v).map Prod.snd).sum := by
  intro voters
  induction voters with
  | nil => intro hv; cases hv
  | cons u rest ih =>
    intro hv hnd
    rw [List.flatMap_cons, voterTotal_append, voterTotal_tagged]
    rw [List.map_cons, List.nodup_cons] at hnd
    rcases List.mem_cons.mp hv with rfl | hv'
    · rw [if_pos rfl]
      have hz : ∀ u' ∈ rest, u'.id ≠ v.id := by
        intro u' hu' he
        exact hnd.1 (he ▸ List.mem_map_of_mem Voter.id hu')
      rw [voterTotal_flatMap_zero v.id g rest hz, add_zero]
    · have hun : u.id ≠ v.id := by
        intro he
        exact hnd.1 (he ▸ List.mem_map_of_mem Voter.id hv')
      rw [if_neg hun, zero_add]
      exact ih hv' hnd.2

lemma voterTotal_perm (vid : Nat) {l1 l2 : List Edge} (h : l1.Perm l2) :
    voterTotal vid l1 = voterTotal vid l2 :=
  (h.map _).sum_eq

lemma candTotal_perm (cid : Nat) {l1 l2 : List Edge} (h : l1.Perm l2) :
    candTotal cid l1 = candTotal cid l2 :=
  (h.map _).sum_eq

/-! ### Reduction lemmas (claims C3 and C4) -/

lemma sum_map_filter_nonzero (f : Edge → ℚ) (hf0 : ∀ e : Edge, e.2.2 = 0 → f e = 0) :
    ∀ l : List Edge, ((l.filter fun e => e.2.2 ≠ 0).map f).sum = (l.map f).sum := by
  intro l
  induction l with
  | nil => rfl
  | cons x xs ih =>
    by_cases h : x.2.2 = 0
    · rw [List.filter_cons_of_neg (by simp [h])]
      simp only [List.map_cons, List.sum_cons, ih, hf0 x h, zero_add]
    · rw [List.filter_cons_of_pos (by simp [h])]
      simp only [List.map_cons, List.sum_cons, ih]

lemma sum_map_set (f : Edge → ℚ) :
    ∀ (l : List Edge) (n : Nat) (e : Edge) (h : n < l.length),
      ((l.set n e).map f).sum = (l.map f).sum - f l[n] + f e := by
  intro l
  induction l with
  | nil => intro n e h; cases h
  | cons x xs ih =>
    intro n e h
    cases n with
    | zero =>
      simp only [List.set_cons_zero, List.map_cons, List.sum_cons, List.getElem_cons_zero]
      ring
    | succ m =>
      simp only [List.set_cons_succ, List.map_cons, List.sum_cons,
        List.getElem_cons_succ]
      rw [ih m e (Nat.lt_of_succ_lt_succ h)]
      ring

lemma isCycleAt_parts {es : List Edge} {i j p q : Nat}
    (h : isCycleAt es i j p q = true) :
    ∃ a b c d : Edge,
      es[i]? = some a ∧ es[j]? = some b ∧ es[p]? = some c ∧ es[q]? = some d ∧
      a.1 = b.1 ∧ c.1 = d.1 ∧ a.1 ≠ c.1 ∧
      a.2.1 = c.2.1 ∧ b.2.1 = d.2.1 ∧ a.2.1 ≠ b.2.1 ∧
      0 < a.2.2 ∧ 0 < b.2.2 ∧ 0 < c.2.2 ∧ 0 < d.2.2 ∧
      i ≠ j ∧ i ≠ p ∧ i ≠ q ∧ j ≠ p ∧ j ≠ q ∧ p ≠ q := by
  unfold isCycleAt at h
  cases ha : es[i]? with
  | none => rw [ha] at h; exact Bool.noConfusion h
  | some a =>
  cases hb : es[j]? with
  | none => rw [ha, hb] at h; exact Bool.noConfusion h
  | some b =>
  cases hc : es[p]? with
  | none => rw [ha, hb, hc] at h; exact Bool.noConfusion h
  | some c =>
  cases hd : es[q]? with
  | none => rw [ha, hb, hc, hd] at h; exact Bool.noConfusion h
  | some d =>
  rw [ha, hb, hc, hd] at h
  have hprops := of_decide_eq_true h
  obtain ⟨hab, hcd, hac, hac2, hbd2, hab2, hwa, hwb, hwc, hwd⟩ := hprops
  have hij : i ≠ j := by
    rintro rfl
    obtain rfl : a = b := Option.some_inj.mp (ha.symm.trans hb)
    exact hab2 rfl
  have hip : i ≠ p := by
    rintro rfl
    obtain rfl : a = c := Option.some_inj.mp (ha.symm.trans hc)
    exact hac rfl
  have hiq : i ≠ q := by
    rintro rfl
    obtain rfl : a = d := Option.some_inj.mp (ha.symm.trans hd)
    exact hac hcd.symm
  have hjp : j ≠ p := by
    rintro rfl
    obtain rfl : b = c := Option.some_inj.mp (hb.symm.trans hc)
    exact hac hab
  have hjq : j ≠ q := by
    rintro rfl
    obtain rfl : b = d := Option.some_inj.mp (hb.symm.trans hd)
    exact hac (hab.trans hcd.symm)
  have hpq : p ≠ q := by
    rintro rfl
    obtain rfl : c = d := Option.some_inj.mp (hc.symm.trans hd)
    exact hab2 (hac2.trans hbd2.symm)
  exact ⟨a, b, c, d, rfl, rfl, rfl, rfl, hab, hcd, hac, hac2, hbd2, hab2,
    hwa, hwb, hwc, hwd, hij, hip, hiq, hjp, hjq, hpq⟩

lemma sum_map_set' (f : Edge → ℚ) {l : List Edge} {n : Nat} {x : Edge} (e : Edge)
    (h : l[n]? = some x) :
    ((l.set n e).map f).sum = (l.map f).sum - f x + f e := by
  obtain ⟨hn, hg⟩ := List.getElem?_eq_some_iff.mp h
  rw [sum_map_set f l n e hn, hg]

lemma sum_map_cancelCycle (f : Edge → ℚ) (hf0 : ∀ e : Edge, e.2.2 = 0 → f e = 0)
    {es : List Edge} {i j p q : Nat} {a b c d : Edge}
    (ha : es[i]? = some a) (hb : es[j]? = some b)
    (hc : es[p]? = some c) (hd : es[q]? = some d)
    (hij : i ≠ j) (hip : i ≠ p) (hiq : i ≠ q)
    (hjp : j ≠ p) (hjq : j ≠ q) (hpq : p ≠ q) :
    ((cancelCycle es i j p q).map f).sum
      = (es.map f).sum
        + (f (a.1, a.2.1, a.2.2 - min a.2.2 d.2.2) - f a)
        + (f (d.1, d.2.1, d.2.2 - min a.2.2 d.2.2) - f d)
        + (f (b.1, b.2.1, b.2.2 + min a.2.2 d.2.2) - f b)
        + (f (c.1, c.2.1, c.2.2 + min a.2.2 d.2.2) - f c) := by
  unfold cancelCycle
  rw [ha, hb, hc, hd]
  rw [sum_map_filter_nonzero f hf0]
  have g2 : (es.set i (a.1, a.2.1, a.2.2 - min a.2.2 d.2.2))[q]? = some d := by
    rw [List.getElem?_set_ne hiq]
    exact hd
  have g3 : ((es.set i (a.1, a.2.1, a.2.2 - min a.2.2 d.2.2)).set
      q (d.1, d.2.1, d.2.2 - min a.2.2 d.2.2))[j]? = some b := by
    rw [List.getElem?_set_ne (Ne.symm hjq), List.getElem?_set_ne hij]
    exact hb
  have g4 : (((es.set i (a.1, a.2.1, a.2.2 - min a.2.2 d.2.2)).set
      q (d.1, d.2.1, d.2.2 - min a.2.2 d.2.2)).set
      j (b.1, b.2.1, b.2.2 + min a.2.2 d.2.2))[p]? = some c := by
    rw [List.getElem?_set_ne hjp, List.getElem?_set_ne (Ne.symm hpq),
      List.getElem?_set_ne hip]
    exact hc
  rw [sum_map_set' f (c.1, c.2.1, c.2.2 + min a.2.2 d.2.2) g4,
    sum_map_set' f (b.1, b.2.1, b.2.2 + min a.2.2 d.2.2) g3,
    sum_map_set' f (d.1, d.2.1, d.2.2 - min a.2.2 d.2.2) g2,
    sum_map_set' f (a.1, a.2.1, a.2.2 - min a.2.2 d.2.2) ha]
  ring

lemma voterTotal_cancelCycle (vid : Nat) {es : List Edge} {i j p q : Nat}
    (h : isCycleAt es i j p q = true) :
    voterTotal vid (cancelCycle es i j p q) = voterTotal vid es := by
  obtain ⟨a, b, c, d, ha, hb, hc, hd, hab, hcd, hac, hac2, hbd2, hab2,
    hwa, hwb, hwc, hwd, hij, hip, hiq, hjp, hjq, hpq⟩ := isCycleAt_parts h
  unfold voterTotal
  rw [sum_map_cancelCycle (fun e => if e.1 = vid then e.2.2 else 0)
    (fun e he => by simp [he]) ha hb hc hd hij hip hiq hjp hjq hpq]
  simp only
  rw [← hab, ← hcd]
  by_cases h1 : a.1 = vid <;> by_cases h2 : c.1 = vid <;>
    simp [h1, h2]

lemma candTotal_cancelCycle (cid : Nat) {es : List Edge} {i j p q : Nat}
    (h : isCycleAt es i j p q = true) :
    candTotal cid (cancelCycle es i j p q) = candTotal cid es := by
  obtain ⟨a, b, c, d, ha, hb, hc, hd, hab, hcd, hac, hac2, hbd2, hab2,
    hwa, hwb, hwc, hwd, hij, hip, hiq, hjp, hjq, hpq⟩ := isCycleAt_parts h
  unfold candTotal
  rw [sum_map_cancelCycle (fun e => if e.2.1 = cid then e.2.2 else 0)
    (fun e he => by simp [he]) ha hb hc hd hij hip hiq hjp hjq hpq]
  simp only
  rw [← hac2, ← hbd2]
  by_cases h1 : a.2.1 = cid <;> by_cases h2 : b.2.1 = cid <;>
    simp [h1, h2]

lemma length_cancelCycle_lt {es : List Edge} {i j p q : Nat}
    (h : isCycleAt es i j p q = true) :
    (cancelCycle es i j p q).length < es.length := by
  obtain ⟨a, b, c, d, ha, hb, hc, hd, hab, hcd, hac, hac2, hbd2, hab2,
    hwa, hwb, hwc, hwd, hij, hip, hiq, hjp, hjq, hpq⟩ := isCycleAt_parts h
  obtain ⟨hi, hgi⟩ := List.getElem?_eq_some_iff.mp ha
  obtain ⟨hq, hgq⟩ := List.getElem?_eq_some_iff.mp hd
  unfold cancelCycle
  rw [ha, hb, hc, hd]
  have hlen : ((((es.set i (a.1, a.2.1, a.2.2 - min a.2.2 d.2.2)).set
      q (d.1, d.2.1, d.2.2 - min a.2.2 d.2.2)).set
      j (b.1, b.2.1, b.2.2 + min a.2.2 d.2.2)).set
      p (c.1, c.2.1, c.2.2 + min a.2.2 d.2.2)).length = es.length := by
    simp
  rw [← hlen]
  apply List.length_filter_lt_length_iff_exists.mpr
  rcases le_total a.2.2 d.2.2 with hm | hm
  · -- the edge at position i reaches weight 0
    have hz : ((((es.set i (a.1, a.2.1, a.2.2 - min a.2.2 d.2.2)).set
        q (d.1, d.2.1, d.2.2 - min a.2.2 d.2.2)).set
        j (b.1, b.2.1, b.2.2 + min a.2.2 d.2.2)).set
        p (c.1, c.2.1, c.2.2 + min a.2.2 d.2.2))[i]?
          = some (a.1, a.2.1, a.2.2 - min a.2.2 d.2.2) := by
      rw [List.getElem?_set_ne (Ne.symm hip), List.getElem?_set_ne (Ne.symm hij),
        List.getElem?_set_ne (Ne.symm hiq), List.getElem?_set_self hi]
    obtain ⟨hi', hgi'⟩ := List.getElem?_eq_some_iff.mp hz
    refine ⟨_, List.getElem_mem hi', ?_⟩
    rw [hgi']
    simp [min_eq_left hm]
  · -- the edge at position q reaches weight 0
    have hz : ((((es.set i (a.1, a.2.1, a.2.2 - min a.2.2 d.2.2)).set
        q (d.1, d.2.1, d.2.2 - min a.2.2 d.2.2)).set
        j (b.1, b.2.1, b.2.2 + min a.2.2 d.2.2)).set
        p (c.1, c.2.1, c.2.2 + min a.2.2 d.2.2))[q]?
          = some (d.1, d.2.1, d.2.2 - min a.2.2 d.2.2) := by
      rw [List.getElem?_set_ne hpq, List.getElem?_set_ne hjq,
        List.getElem?_set_self (by rw [List.length_set]; exact hq)]
    obtain ⟨hq', hgq'⟩ := List.getElem?_eq_some_iff.mp hz
    refine ⟨_, List.getElem_mem hq', ?_⟩
    rw [hgq']
    simp [min_eq_right hm]

lemma findCycle_isCycleAt {es : List Edge} {t : Nat × Nat × Nat × Nat}
    (h : findCycle es = some t) : isCycleAt es t.1 t.2.1 t.2.2.1 t.2.2.2 = true := by
  unfold findCycle at h
  have hh := List.find?_some h
  exact hh

lemma voterTotal_reduceFuel (vid : Nat) :
    ∀ (n : Nat) (es : List Edge), voterTotal vid (reduceFuel n es) = voterTotal vid es := by
  intro n
  induction n with
  | zero => intro es; rfl
  | succ m ih =>
    intro es
    rw [reduceFuel]
    cases hf : findCycle es with
    | none => rfl
    | some t =>
      rw [ih, voterTotal_cancelCycle vid (findCycle_isCycleAt hf)]

lemma candTotal_reduceFuel (cid : Nat) :
    ∀ (n : Nat) (es : List Edge), candTotal cid (reduceFuel n es) = candTotal cid es := by
  intro n
  induction n with
  | zero => intro es; rfl
  | succ m ih =>
    intro es
    rw [reduceFuel]
    cases hf : findCycle es with
    | none => rfl
    | some t =>
      rw [ih, candTotal_cancelCycle cid (findCycle_isCycleAt hf)]

lemma findCycle_nil : findCycle [] = none := by
  rfl

lemma findCycle_reduceFuel :
    ∀ (n : Nat) (es : List Edge), es.length ≤ n →
      findCycle (reduceFuel n es) = none := by
  intro n
  induction n with
  | zero =>
    intro es h
    have : es = [] := List.eq_nil_of_length_eq_zero (Nat.le_zero.mp h)
    rw [this]
    exact findCycle_nil
  | succ m ih =>
    intro es h
    rw [reduceFuel]
    cases hf : findCycle es with
    | none => exact hf
    | some t =>
      apply ih
      have := length_cancelCycle_lt (findCycle_isCycleAt hf)
      omega

lemma reduceFuel_of_findCycle_none {es : List Edge} (h : findCycle es = none) :
    ∀ n : Nat, reduceFuel n es = es := by
  intro n
  cases n with
  | zero => rfl
  | succ m =>
    rw [reduceFuel, h]

lemma reduceEdges_idem (es : List Edge) :
    reduceEdges (reduceEdges es) = reduceEdges es := by
  have h : findCycle (reduceEdges es) = none :=
    findCycle_reduceFuel es.length es le_rfl
  unfold reduceEdges
  exact reduceFuel_of_findCycle_none h _

/-- C4: the Reducer is idempotent on every election result, and it changes
no candidate's total backing and no voter's total committed stake. -/
theorem c4_reduction_safety (x : ElectionResult) :
    reduceResult (reduceResult x) = reduceResult x ∧
    (∀ cid, candTotal cid (reduceResult x).edges = candTotal cid x.edges) ∧
    (∀ vid, voterTotal vid (reduceResult x).edges = voterTotal vid x.edges) := by
  refine ⟨?_, ?_, ?_⟩
  · unfold reduceResult
    rw [reduceEdges_idem]
  · intro cid
    exact candTotal_reduceFuel cid x.edges.length x.edges
  · intro vid
    exact voterTotal_reduceFuel vid x.edges.length x.edges

/-- C3: for every snapshot with distinct voter identities and every voter
in it, the sum of that voter's outgoing edge weights in a successful
election result never exceeds the voter's declared stake — both directly
after the election (with any number of balancing rounds) and after the
optional reduction. -/
theorem c3_weight_conservation (snap : Snapshot) (k r : Nat)
    (hids : (snap.voters.map Voter.id).Nodup) (res : ElectionResult)
    (hok : electionDriver snap k r = .ok res) :
    ∀ v ∈ snap.voters,
      voterTotal v.id res.edges ≤ (v.stake : ℚ) ∧
      voterTotal v.id (reduceEdges res.edges) ≤ (v.stake : ℚ) := by
  intro v hv
  by_cases hlt : snap.candidates.length < k
  · simp [electionDriver, hlt] at hok
  · simp only [electionDriver, if_neg hlt, Except.ok.injEq] at hok
    have hedges : res.edges = List.insertionSort edgeLe
        (snap.voters.flatMap fun u =>
          (balanceVoterRounds r
              (weightsOfVoter (seqPhragmen snap.voters snap.candidates k) u)).map
            fun p => (u.id, p.1, p.2)) := by
      rw [← hok]
    have hperm : (List.insertionSort edgeLe
        (snap.voters.flatMap fun u =>
          (balanceVoterRounds r
              (weightsOfVoter (seqPhragmen snap.voters snap.candidates k) u)).map
            fun p => (u.id, p.1, p.2))).Perm
        (snap.voters.flatMap fun u =>
          (balanceVoterRounds r
              (weightsOfVoter (seqPhragmen snap.voters snap.candidates k) u)).map
            fun p => (u.id, p.1, p.2)) :=
      List.perm_insertionSort edgeLe _
    have h1 : voterTotal v.id res.edges
        = ((balanceVoterRounds r
            (weightsOfVoter (seqPhragmen snap.voters snap.candidates k) v)).map
              Prod.snd).sum := by
      rw [hedges, voterTotal_perm v.id hperm]
      exact voterTotal_flatMap_nodup v _ snap.voters hv hids
    have h2 : voterTotal v.id res.edges ≤ (v.stake : ℚ) := by
      rw [h1, balanceVoterRounds_snd_sum]
      exact weightsOfVoter_snd_sum_le _ v
    refine ⟨h2, ?_⟩
    rw [reduceEdges, voterTotal_reduceFuel]
    exact h2

/-! ### Determinism lemmas (claim C2): the driver does not depend on the
iteration order of the candidate and voter collections. -/

lemma approval_perm {v1 v2 : List Voter} (h : v1.Perm v2) (c : Nat) :
    approval v1 c = approval v2 c :=
  ((h.filter _).map _).sum_eq

lemma scoreNum_perm {v1 v2 : List Voter} (h : v1.Perm v2)
    (ws : List (Nat × ℚ)) (c : Nat) : scoreNum v1 ws c = scoreNum v2 ws c := by
  unfold scoreNum
  rw [((h.filter _).map _).sum_eq]

lemma scoreValue_perm {v1 v2 : List Voter} (h : v1.Perm v2)
    (ws : List (Nat × ℚ)) (c : Nat) : scoreValue v1 ws c = scoreValue v2 ws c := by
  unfold scoreValue
  rw [approval_perm h, scoreNum_perm h]

lemma candBetter_perm {v1 v2 : List Voter} (h : v1.Perm v2)
    (ws : List (Nat × ℚ)) (a b : Nat) :
    candBetter v1 ws a b = candBetter v2 ws a b := by
  unfold candBetter
  simp only [approval_perm h, scoreNum_perm h]

lemma candBetter_asymm (voters : List Voter) (ws : List (Nat × ℚ)) {x y : Nat}
    (h : candBetter voters ws x y = true) : candBetter voters ws y x = false := by
  unfold candBetter at h ⊢
  by_cases hx : approval voters x = 0 <;> by_cases hy : approval voters y = 0 <;>
      simp [hx, hy] at h ⊢
  · omega
  · rcases h with h | ⟨he, h2⟩
    · constructor
      · linarith
      · intro he'
        linarith
    · constructor
      · exact le_of_eq he
      · intro _
        omega

lemma candBetter_total (voters : List Voter) (ws : List (Nat × ℚ)) {x y : Nat}
    (h : x ≠ y) :
    candBetter voters ws x y = true ∨ candBetter voters ws y x = true := by
  unfold candBetter
  by_cases hx : approval voters x = 0 <;> by_cases hy : approval voters y = 0 <;>
      simp [hx, hy]
  · omega
  · rcases lt_trichotomy (scoreNum voters ws x / approval voters x)
      (scoreNum voters ws y / approval voters y) with hs | hs | hs
    · exact Or.inl (Or.inl hs)
    · rcases Nat.lt_or_ge x y with hxy | hxy
      · exact Or.inl (Or.inr ⟨hs, hxy⟩)
      · exact Or.inr (Or.inr ⟨hs.symm, by omega⟩)
    · exact Or.inr (Or.inl hs)

lemma candBetter_trans (voters : List Voter) (ws : List (Nat × ℚ)) {x y z : Nat}
    (h1 : candBetter voters ws x y = true) (h2 : candBetter voters ws y z = true) :
    candBetter voters ws x z = true := by
  unfold candBetter at h1 h2 ⊢
  by_cases hx : approval voters x = 0 <;> by_cases hy : approval voters y = 0 <;>
      by_cases hz : approval voters z = 0 <;> simp [hx, hy, hz] at h1 h2 ⊢
  · omega
  · rcases h1 with h1 | ⟨e1, l1⟩ <;> rcases h2 with h2 | ⟨e2, l2⟩
    · exact Or.inl (h1.trans h2)
    · exact Or.inl (by rw [← e2]; exact h1)
    · exact Or.inl (by rw [e1]; exact h2)
    · exact Or.inr ⟨e1.trans e2, by omega⟩

lemma foldl_best_spec (voters : List Voter) (ws : List (Nat × ℚ)) :
    ∀ (cs : List Nat) (acc b : Nat),
      cs.foldl (fun best x => if candBetter voters ws x best then x else best) acc = b →
      (∀ x ∈ cs, x ≠ b → candBetter voters ws b x = true) ∧
      (acc ≠ b → candBetter voters ws b acc = true) := by
  intro cs
  induction cs with
  | nil =>
    intro acc b hb
    simp only [List.foldl_nil] at hb
    subst hb
    exact ⟨by simp, fun hne => absurd rfl hne⟩
  | cons y ys ih =>
    intro acc b hb
    rw [List.foldl_cons] at hb
    by_cases hc : candBetter voters ws y acc = true
    · rw [if_pos hc] at hb
      obtain ⟨h1, h2⟩ := ih y b hb
      constructor
      · intro x hx hxb
        rcases List.mem_cons.mp hx with rfl | hx'
        · exact h2 hxb
        · exact h1 x hx' hxb
      · intro hab
        by_cases hby : y = b
        · rw [← hby]
          exact hc
        · exact candBetter_trans voters ws (h2 hby) hc
    · rw [if_neg hc] at hb
      obtain ⟨h1, h2⟩ := ih acc b hb
      have hacy : acc ≠ y → candBetter voters ws acc y = true := by
        intro hne
        rcases candBetter_total voters ws (Ne.symm hne) with ht | ht
        · exact absurd ht hc
        · exact ht
      constructor
      · intro x hx hxb
        rcases List.mem_cons.mp hx with rfl | hx'
        · by_cases hba : acc = b
          · rw [← hba]
            apply hacy
            intro he
            exact hxb (he ▸ hba)
          · by_cases hay : acc = x
            · rw [← hay]
              exact h2 hba
            · exact candBetter_trans voters ws (h2 hba) (hacy hay)
        · exact h1 x hx' hxb
      · exact h2

lemma selectMin_spec {voters : List Voter} {ws : List (Nat × ℚ)}
    {l : List Nat} {u : Nat} (h : selectMin voters ws l = some u) :
    u ∈ l ∧ ∀ x ∈ l, x ≠ u → candBetter voters ws u x = true := by
  cases l with
  | nil => simp [selectMin] at h
  | cons c cs =>
    simp only [selectMin, Option.some_inj] at h
    obtain ⟨h1, h2⟩ := foldl_best_spec voters ws cs c u h
    refine ⟨?_, ?_⟩
    · have := foldl_best_mem voters ws cs c
      rwa [h] at this
    · intro x hx hxu
      rcases List.mem_cons.mp hx with rfl | hx'
      · exact h2 hxu
      · exact h1 x hx' hxu

lemma selectMin_perm (voters : List Voter) (ws : List (Nat × ℚ))
    {l1 l2 : List Nat} (hp : l1.Perm l2) :
    selectMin voters ws l1 = selectMin voters ws l2 := by
  cases h1 : selectMin voters ws l1 with
  | none =>
    have hl1 : l1 = [] := selectMin_eq_none_iff.mp h1
    have hl2 : l2 = [] := List.perm_nil.mp (hl1 ▸ hp).symm
    rw [hl2]
    rfl
  | some u =>
    cases h2 : selectMin voters ws l2 with
    | none =>
      have hl2 : l2 = [] := selectMin_eq_none_iff.mp h2
      have hl1 : l1 = [] := List.perm_nil.mp (hl2 ▸ hp)
      rw [hl1] at h1
      simp [selectMin] at h1
    | some w =>
      obtain ⟨hu, hmin1⟩ := selectMin_spec h1
      obtain ⟨hw, hmin2⟩ := selectMin_spec h2
      by_cases he : u = w
      · rw [he]
      · have r1 := hmin1 w (hp.mem_iff.mpr hw) (Ne.symm he)
        have r2 := hmin2 u (hp.mem_iff.mp hu) he
        have := candBetter_asymm voters ws r1
        rw [this] at r2
        cases r2

lemma selectMin_congr {v1 v2 : List Voter} (h : v1.Perm v2)
    (ws : List (Nat × ℚ)) (l : List Nat) :
    selectMin v1 ws l = selectMin v2 ws l := by
  cases l with
  | nil => rfl
  | cons c cs =>
    simp only [selectMin, Option.some_inj]
    apply List.foldl_ext
    intro acc b _
    rw [candBetter_perm h]

lemma seqPhragmenLoop_perm {voters1 voters2 : List Voter} (hv : voters1.Perm voters2) :
    ∀ (n : Nat) {rem1 rem2 : List Nat}, rem1.Perm rem2 →
      ∀ ws : List (Nat × ℚ),
        seqPhragmenLoop voters1 n rem1 ws = seqPhragmenLoop voters2 n rem2 ws := by
  intro n
  induction n with
  | zero => intro rem1 rem2 _ ws; rfl
  | succ m ih =>
    intro rem1 rem2 hr ws
    rw [seqPhragmenLoop, seqPhragmenLoop]
    have hsel : selectMin voters1 ws rem1 = selectMin voters2 ws rem2 := by
      rw [selectMin_perm voters1 ws hr, selectMin_congr hv ws rem2]
    rw [hsel]
    cases hs : selectMin voters2 ws rem2 with
    | none => rfl
    | some c =>
      show seqPhragmenLoop voters1 m (rem1.erase c) (ws ++ [(c, scoreValue voters1 ws c)])
        = seqPhragmenLoop voters2 m (rem2.erase c) (ws ++ [(c, scoreValue voters2 ws c)])
      rw [scoreValue_perm hv]
      exact ih (hr.erase c) _

/-- C2: the Election Driver is deterministic: its result is a function of
the snapshot's contents, the winner count and the balancing-round count
alone — two runs on the same snapshot give identical results, and even
presenting the candidate and voter collections in a different iteration
order leaves the winners and every edge weight bit-identical. -/
theorem c2_driver_deterministic (s1 s2 : Snapshot) (k r : Nat)
    (hc : s1.candidates.Perm s2.candidates) (hv : s1.voters.Perm s2.voters) :
    electionDriver s1 k r = electionDriver s2 k r := by
  unfold electionDriver
  rw [hc.length_eq]
  by_cases h : s2.candidates.length < k
  · rw [if_pos h, if_pos h]
  · rw [if_neg h, if_neg h]
    have hws : seqPhragmen s1.voters s1.candidates k
        = seqPhragmen s2.voters s2.candidates k :=
      seqPhragmenLoop_perm hv k hc []
    rw [hws]
    have hraw := hv.flatMap_right (fun v : Voter =>
      (balanceVoterRounds r
          (weightsOfVoter (seqPhragmen s2.voters s2.candidates k) v)).map
        fun p => (v.id, p.1, p.2))
    have hsort := List.eq_of_perm_of_sorted
      (((List.perm_insertionSort edgeLe _).trans hraw).trans
        (List.perm_insertionSort edgeLe _).symm)
      (List.sorted_insertionSort edgeLe _) (List.sorted_insertionSort edgeLe _)
    rw [hsort]

/-- C2, witness: the driver output on a two-candidate snapshot is
unchanged when the candidate list is presented in the opposite order. -/
theorem c2_driver_deterministic_witness :
    electionDriver ⟨[1, 2], [⟨7, 10, [1, 2]⟩]⟩ 1 0
      = electionDriver ⟨[2, 1], [⟨7, 10, [1, 2]⟩]⟩ 1 0 :=
  c2_driver_deterministic _ _ 1 0 (by decide) (by decide)

/-- C3, witness: on a one-candidate, one-voter snapshot the election
commits the full stake 10 to the single winner, and both before and after
reduction the voter's outgoing total stays within its stake. -/
theorem c3_weight_conservation_witness :
    voterTotal 7 [((7 : Nat), (5 : Nat), (10 : ℚ))] ≤ ((10 : Nat) : ℚ) ∧
    voterTotal 7 (reduceEdges [((7 : Nat), (5 : Nat), (10 : ℚ))]) ≤ ((10 : Nat) : ℚ) :=
  c3_weight_conservation ⟨[5], [⟨7, 10, [5]⟩]⟩ 1 0 (by decide) ⟨[5], [(7, 5, 10)]⟩
    (by
      norm_num [electionDriver, seqPhragmen, seqPhragmenLoop, selectMin, scoreValue,
        approval, scoreNum, loadOf, weightsOfVoter, incrAux, balanceVoterRounds,
        List.insertionSort, List.orderedInsert])
    ⟨7, 10, [5]⟩ (by decide)

end OfflineElection
